import Mathlib

/-!
Verification development for `src/jira_analyzer.py`.

Shallow embedding conventions:
* Python strings are modelled as `List Char`.
* Python JSON values (results of `json.loads`) are modelled by `PyVal`;
  JSON floats are not needed by any claim and numbers are modelled as
  integers.
* The external `json` standard library's `loads` is abstracted as a
  function parameter `loads : List Char → Option PyVal` (`none` models a
  raised `JSONDecodeError`); `loadsEx` is a concrete instance used on
  concrete inputs.
* The `requests` HTTP library and the remote model are abstracted by a
  `NetResult` oracle describing the outcome of one POST.
-/

/-- Python `str.strip` whitespace set (the ASCII part of `str.isspace`). -/
def pyIsSpace (c : Char) : Bool :=
  c = ' ' || c = '\t' || c = '\n' || c = '\r' || c = '\x0b' || c = '\x0c'

/-- Python `s.strip()`. -/
def pyStrip (s : List Char) : List Char :=
  ((s.dropWhile pyIsSpace).reverse.dropWhile pyIsSpace).reverse

/-- Python `s.find(sub)`: least index at which `sub` occurs as a substring
(`none` models the `-1` result). -/
def pyFind (s sub : List Char) : Option Nat :=
  (List.range (s.length + 1)).find? (fun i => sub.isPrefixOf (s.drop i))

/-- Python `sep.join(parts)`. -/
def sepJoin (sep : List Char) : List (List Char) → List Char
  | [] => []
  | [x] => x
  | x :: y :: rest => x ++ sep ++ sepJoin sep (y :: rest)

/-- Python values produced by `json.loads`. -/
inductive PyVal where
  | str (s : List Char)
  | num (n : Int)
  | bool (b : Bool)
  | null
  | arr (xs : List PyVal)
  | obj (fields : List (List Char × PyVal))

/-- Python `x is None` for a JSON value. -/
def isNone : PyVal → Bool
  | .null => true
  | _ => false

/-- Python `x == lit` where `lit` is a string literal: a non-string value
compares unequal. -/
def pyEqStr : PyVal → List Char → Bool
  | .str s, t => s == t
  | _, _ => false

/-- Python truthiness (`if x:`) for the modelled values. -/
def pyTruthy : PyVal → Bool
  | .str s => !s.isEmpty
  | .num n => n != 0
  | .bool b => b
  | .null => false
  | .arr xs => !xs.isEmpty
  | .obj fs => !fs.isEmpty

mutual

/-- Python `repr` of a JSON value (escaping inside string reprs is not
modelled). -/
def pyRepr : PyVal → List Char
  | .str s => '\x27' :: s ++ ['\x27']
  | .num n => (toString n).data
  | .bool b => if b then "True".data else "False".data
  | .null => "None".data
  | .arr xs => '[' :: pyReprSeq xs ++ [']']
  | .obj fs => '\x7b' :: pyReprFields fs ++ ['\x7d']

/-- `", "`-separated reprs of list elements. -/
def pyReprSeq : List PyVal → List Char
  | [] => []
  | [x] => pyRepr x
  | x :: y :: rest => pyRepr x ++ ", ".data ++ pyReprSeq (y :: rest)

/-- `", "`-separated `key: value` reprs of dict items. -/
def pyReprFields : List (List Char × PyVal) → List Char
  | [] => []
  | [(k, v)] => pyRepr (.str k) ++ ": ".data ++ pyRepr v
  | (k, v) :: kv :: rest =>
    pyRepr (.str k) ++ ": ".data ++ pyRepr v ++ ", ".data ++ pyReprFields (kv :: rest)

end

/-- Python `str(x)` for the modelled values. -/
def pyStr : PyVal → List Char
  | .str s => s
  | v => pyRepr v

/-- Python `dict.get(key)` on a dict modelled as its item list. -/
def pyGet : List (List Char × PyVal) → List Char → Option PyVal
  | [], _ => none
  | (k, v) :: rest, key => if k = key then some v else pyGet rest key

/-- Python `dict.get(key, default)`. -/
def pyGetD (o : List (List Char × PyVal)) (key : List Char) (dflt : PyVal) : PyVal :=
  (pyGet o key).getD dflt

/-- `(?m)^` of the pattern in `extract_tickets`: position 0 or the position
just after a newline. -/
def isLineStart (text : List Char) (pos : Nat) : Bool :=
  pos == 0 || text[pos - 1]? == some '\n'

/-- One attempt of `.*Jira.*\n\[G7APP-\d+\]` at position `pos` (the anchor
`^` is checked by `matchAt`).  `.` does not match a newline, so the `\n` of
the pattern is forced to be the first newline at or after `pos`, and
`.*Jira.*` matching the whole first line is equivalent to that line
containing `"Jira"`; the greedy `\d+` takes the maximal digit run, which
must be non-empty and followed by `]`.  `some d` means the match spans
`[pos, pos + d + 1)` (every match has length `d + 1 ≥ 1`).  `\d` is
modelled as an ASCII digit. -/
def matchEndAt (text : List Char) (pos : Nat) : Option Nat :=
  let rest := text.drop pos
  let line1 := rest.takeWhile (fun c => c ≠ '\n')
  if line1.length < rest.length then
    if (pyFind line1 "Jira".data).isSome then
      let rest2 := rest.drop (line1.length + 1)
      if "[G7APP-".data.isPrefixOf rest2 then
        let ds := (rest2.drop 7).takeWhile Char.isDigit
        if 0 < ds.length ∧ (rest2.drop (7 + ds.length)).head? = some ']' then
          some (line1.length + ds.length + 8)
        else none
      else none
    else none
  else none

/-- Whether the whole pattern `(?m)^.*Jira.*\n\[G7APP-\d+\]` matches at
`pos`; `some d` means the match spans `[pos, pos + d + 1)`. -/
def matchAt (text : List Char) (pos : Nat) : Option Nat :=
  if isLineStart text pos then matchEndAt text pos else none

/-- The scanning step of `re.finditer`: leftmost match starting at a
position `≥ pos`.  `some (off, d)` means the match starts at `pos + off`
and spans `[pos + off, pos + off + d + 1)` (the offset form keeps the
recursion structurally decreasing). -/
def findFrom (text : List Char) (pos : Nat) : Option (Nat × Nat) :=
  if h : text.length < pos then none
  else
    match matchAt text pos with
    | some d => some (0, d)
    | none => (findFrom text (pos + 1)).map (fun q => (q.1 + 1, q.2))
termination_by text.length + 1 - pos
decreasing_by omega

/-- `re.finditer` on the suffix starting at `pos`: the list of
`(start, stop)` spans of the non-overlapping matches, scanning left to
right and resuming after each match (matches are never empty here, so the
empty-match advance of the Python engine never triggers). -/
def finditer (text : List Char) (pos : Nat) : List (Nat × Nat) :=
  if h : text.length < pos then []
  else
    match findFrom text pos with
    | none => []
    | some (off, d) =>
      (pos + off, pos + off + d + 1) :: finditer text (pos + off + d + 1)
termination_by text.length + 1 - pos
decreasing_by omega

/-- The loop of `extract_tickets`: given the match start positions, block
`i` is `text[start_i : start_(i+1)].strip()` and the last block is
`text[start_last :].strip()`. -/
def blocksFrom (text : List Char) : List Nat → List (List Char)
  | [] => []
  | [s] => [pyStrip (text.drop s)]
  | s :: s2 :: rest => pyStrip ((text.drop s).take (s2 - s)) :: blocksFrom text (s2 :: rest)

/-- `extract_tickets`. -/
def extract_tickets (text : List Char) : List (List Char) :=
  blocksFrom text ((finditer text 0).map Prod.fst)

/-- `TICKETS_PER_CHUNK = 3`. -/
def TICKETS_PER_CHUNK : Nat := 3

/-- The `"\n\n---\n\n"` separator of `chunk_tickets`. -/
def chunkSep : List Char := "\n\n---\n\n".data

/-- `chunk_tickets`: the loop `for i in range(0, len(tickets), 3)` joining
`tickets[i : i + 3]`. -/
def chunk_tickets : List (List Char) → List (List Char)
  | [] => []
  | t :: ts =>
    sepJoin chunkSep ((t :: ts).take TICKETS_PER_CHUNK)
      :: chunk_tickets ((t :: ts).drop TICKETS_PER_CHUNK)
termination_by ts => ts.length
decreasing_by simp [TICKETS_PER_CHUNK]; omega

/-- The slices `tickets[i : i + 3]` visited by the `chunk_tickets` loop. -/
def groupsOf : List (List Char) → List (List (List Char))
  | [] => []
  | t :: ts => (t :: ts).take TICKETS_PER_CHUNK :: groupsOf ((t :: ts).drop TICKETS_PER_CHUNK)
termination_by ts => ts.length
decreasing_by simp [TICKETS_PER_CHUNK]; omega

/-- The messages printed on the failure paths, abbreviated to tags (the
code prints fixed texts plus excerpts of the offending data). -/
inductive PrintMsg where
  | networkError
  | apiError
  | badShape
  | missingTags
  | decodeError
  | skipping

/-- `"<JSON>"`. -/
def tagOpen : List Char := "<JSON>".data

/-- `"</JSON>"`. -/
def tagClose : List Char := "</JSON>".data

/-- `if isinstance(data, dict): data = [data]` of `extract_json`. -/
def wrapDict : PyVal → PyVal
  | .obj fs => .arr [.obj fs]
  | v => v

/-- `extract_json(raw_text)`: strip, locate the `<JSON>`/`</JSON>` tags,
`json.loads` the stripped block in between (a dict is wrapped into a
one-element list), `none` on a missing tag or a decode failure; paired
with the messages printed.  `loads` abstracts the external `json.loads`
(`none` models a raised decode error, as on the empty string). -/
def extract_json (loads : List Char → Option PyVal) :
    Option (List Char) → Option PyVal × List PrintMsg
  | none => (none, [])
  | some raw_text =>
    let raw := pyStrip raw_text
    match pyFind raw tagOpen, pyFind raw tagClose with
    | some start, some stop =>
      let json_block :=
        pyStrip ((raw.drop (start + tagOpen.length)).take (stop - (start + tagOpen.length)))
      match loads json_block with
      | some data => (some (wrapDict data), [])
      | none => (none, [.decodeError])
    | _, _ => (none, [.missingTags])

/-- A concrete instance of the abstract `loads` parameter, used to settle
claims on concrete inputs (`none` models a raised decode error, as Python's
`json.loads` does on the empty string and on non-JSON text). -/
def loadsEx (s : List Char) : Option PyVal :=
  if s = "[]".data then some (.arr [])
  else if s = "\x7b\x7d".data then some (.obj [])
  else if s = "1".data then some (.num 1)
  else if s = "3".data then some (.num 3)
  else none

/-- A concrete `loads` instance knowing the block `"null"`, mirroring
`json.loads("null")`, which returns Python `None`. -/
def loadsNullEx (s : List Char) : Option PyVal :=
  if s = "null".data then some .null else none

/-- Outcome of the single `requests.post` of `call_gemini`: the raised
network exception, a non-200 status, a response whose JSON shape lacks
`candidates[0].content.parts[0].text`, or that extracted text. -/
inductive NetResult where
  | netError
  | httpError (body : List Char)
  | badShape
  | ok (text : List Char)

/-- Observable behaviour of one `call_gemini` call: the POSTs issued (each
identified by its chunk text; the fixed prompt prefix of the payload is
elided), the returned text, and the messages printed. -/
structure CallOut where
  requests : List (List Char)
  reply : Option (List Char)
  msgs : List PrintMsg

/-- `call_gemini(chunk_text)`: an empty (falsy) chunk returns `None`
without posting; otherwise exactly one POST is attempted whose outcome is
given by the `NetResult` oracle, every failure printing a message and
returning `None`. -/
def call_gemini (res : NetResult) (chunk_text : List Char) : CallOut :=
  if chunk_text.isEmpty then ⟨[], none, []⟩
  else
    match res with
    | .netError => ⟨[chunk_text], none, [.networkError]⟩
    | .httpError _ => ⟨[chunk_text], none, [.apiError]⟩
    | .badShape => ⟨[chunk_text], none, [.badShape]⟩
    | .ok t => ⟨[chunk_text], some t, []⟩

/-- Observable behaviour of one iteration of the chunk loop in `main`. -/
structure ChunkOut where
  idx : Nat
  requests : List (List Char)
  line : Option PyVal
  msgs : List PrintMsg

/-- Python's `parsed is None` test in `main`.  Python has a single `None`
value: `extract_json` returns it both on every failure path (modelled
`none`) and when the tag-delimited block decodes to JSON `null`
(`json.loads("null")` is `None`, not a dict, returned as-is, modelled
`some .null`) — the `is None` check cannot tell them apart. -/
def pyParsedIsNone : Option PyVal → Bool
  | none => true
  | some v => isNone v

/-- One iteration of `for idx, chunk in enumerate(chunks)` in `main`:
call the model, extract the JSON; `if parsed is None` print the skip
message and write nothing (this also catches a reply whose block decodes
to JSON `null`), otherwise record the value written as this chunk's JSONL
line. -/
def processChunk (loads : List Char → Option PyVal) (res : NetResult)
    (idx : Nat) (chunk : List Char) : ChunkOut :=
  let c := call_gemini res chunk
  let p := extract_json loads c.reply
  if pyParsedIsNone p.1 then ⟨idx, c.requests, none, c.msgs ++ p.2 ++ [.skipping]⟩
  else ⟨idx, c.requests, p.1, c.msgs ++ p.2⟩

/-- The chunk loop of `main` from index `i` on, under a per-chunk network
oracle `net`. -/
def runChunksFrom (loads : List Char → Option PyVal) (net : Nat → NetResult) :
    Nat → List (List Char) → List ChunkOut
  | _, [] => []
  | i, c :: cs => processChunk loads (net i) i c :: runChunksFrom loads net (i + 1) cs

/-- The whole chunk loop of `main`. -/
def runChunks (loads : List Char → Option PyVal) (net : Nat → NetResult)
    (chunks : List (List Char)) : List ChunkOut :=
  runChunksFrom loads net 0 chunks

/-- The JSON-lines file written by `main`: one `(chunk_index, results)`
pair per chunk whose parse succeeded, in loop order. -/
def jsonl (outs : List ChunkOut) : List (Nat × PyVal) :=
  outs.filterMap (fun o => o.line.map (fun v => (o.idx, v)))

/-- The HTTP POSTs issued over the whole loop, in order. -/
def requestsOf (outs : List ChunkOut) : List (List Char) :=
  (outs.map ChunkOut.requests).flatten

/-- The value `json.loads` recovers from the JSONL line
`json.dumps({"chunk": idx, "results": v})` (dumps/loads round-trips the
modelled values). -/
def jsonlVal (q : Nat × PyVal) : PyVal :=
  .obj [("chunk".data, .num q.1), ("results".data, q.2)]

/-- `"<li>-</li>"`. -/
def liDash : List Char := "<li>-</li>".data

/-- `f"<li>{entry}</li>"`. -/
def liItem (entry : List Char) : List Char :=
  "<li>".data ++ entry ++ "</li>".data

/-- Python iteration `for it in items` over a JSON value: a list yields its
elements, a string its characters (as one-character strings), a dict its
keys; `none` models the `TypeError` raised on a non-iterable value. -/
def pyIter : PyVal → Option (List PyVal)
  | .arr xs => some xs
  | .str s => some (s.map (fun c => .str [c]))
  | .obj fs => some (fs.map (fun kv => .str kv.1))
  | _ => none

/-- `list_to_html(items)`: `"<li>-</li>"` for a falsy value, otherwise
skip `None` entries, `str` the rest, and join them as `<li>` items
(`"<li>-</li>"` again if nothing remains); `none` models the `TypeError`
on a truthy non-iterable value. -/
def list_to_html (items : PyVal) : Option (List Char) :=
  if pyTruthy items = false then some liDash
  else
    match pyIter items with
    | none => none
    | some xs =>
      let safe_items := xs.filterMap (fun it => if isNone it then none else some (pyStr it))
      if safe_items.isEmpty then some liDash
      else some ((safe_items.map liItem).flatten)

/-- `JIRA_DOMAIN`. -/
def JIRA_DOMAIN : List Char := "https://your-jira-domain/browse/".data

/-- The local variables bound for one result object in the loop body of
`generate_html`. -/
structure CardData where
  ticket_key : PyVal
  status : PyVal
  category : PyVal
  summary : PyVal
  root_cause : PyVal
  reasoning : PyVal
  fix_recommendation : PyVal
  risk : PyVal
  missing_details : PyVal
  link : PyVal

/-- `JIRA_DOMAIN + ticket_key if ticket_key else "#"`: `none` models the
`TypeError` raised when a truthy non-string `ticket_key` is concatenated
to the domain string. -/
def fallbackLink (tk : PyVal) : Option PyVal :=
  if pyTruthy tk then
    match tk with
    | .str s => some (.str (JIRA_DOMAIN ++ s))
    | _ => none
  else some (.str "#".data)

/-- `link = obj.get("link") or (JIRA_DOMAIN + ticket_key if ticket_key
else "#")`: the `or` keeps a truthy `link` value and evaluates the
fallback only when `obj.get("link")` is absent (`None`) or falsy. -/
def linkOf (o : List (List Char × PyVal)) : Option PyVal :=
  match pyGet o "link".data with
  | some lv =>
    if pyTruthy lv then some lv else fallbackLink (pyGetD o "ticket_key".data (.str []))
  | none => fallbackLink (pyGetD o "ticket_key".data (.str []))

/-- The `obj.get(...)` bindings of the `generate_html` loop body. -/
def cardData (o : List (List Char × PyVal)) : Option CardData :=
  (linkOf o).map (fun l =>
    ⟨pyGetD o "ticket_key".data (.str []), pyGetD o "status".data (.str []),
     pyGetD o "category".data (.str []),
     pyGetD o "summary".data (.str []), pyGetD o "root_cause".data (.arr []),
     pyGetD o "reasoning".data (.arr []), pyGetD o "fix_recommendation".data (.arr []),
     pyGetD o "risk".data (.arr []), pyGetD o "missing_details".data (.arr []), l⟩)

/-- The badge class chosen from `category`. -/
def badgeOf (category : PyVal) : List Char :=
  if pyEqStr category "Solvable Bug".data then "green".data
  else if pyEqStr category "Needs More Details".data then "amber".data
  else "gray".data

/-- The text pieces interpolated into one `<div class="card">` of the
report (the surrounding fixed HTML is elided). -/
structure HtmlCard where
  link : List Char
  ticket_key : List Char
  badge : List Char
  category : List Char
  status : List Char
  summary : List Char
  root_cause : List Char
  reasoning : List Char
  fix_recommendation : List Char
  risk : List Char
  missing_details : List Char

/-- Rendering of one result object into a card: `none` models a raised
`TypeError` (link fallback on a truthy non-string key, or `list_to_html`
on a truthy non-iterable field). -/
def renderCard (o : List (List Char × PyVal)) : Option HtmlCard :=
  match cardData o with
  | none => none
  | some cd =>
    match list_to_html cd.root_cause, list_to_html cd.reasoning,
        list_to_html cd.fix_recommendation, list_to_html cd.risk,
        list_to_html cd.missing_details with
    | some rc, some rs, some fx, some rk, some md =>
      some ⟨pyStr cd.link, pyStr cd.ticket_key, badgeOf cd.category, pyStr cd.category,
            pyStr cd.status, pyStr cd.summary, rc, rs, fx, rk, md⟩
    | _, _, _, _, _ => none

/-- `for obj in results` of `generate_html`: each object must be a dict
(`obj.get` on anything else raises, modelled as `none`). -/
def cardsOfObjs : List PyVal → Option (List HtmlCard)
  | [] => some []
  | o :: os =>
    match o with
    | .obj g =>
      match renderCard g, cardsOfObjs os with
      | some c, some rest => some (c :: rest)
      | _, _ => none
    | _ => none

/-- One JSONL line of `generate_html`: `results = data.get("results", [])`
is iterated by `for obj in results`.  A list yields its elements; a string
yields its characters and a dict its keys, so a non-empty string or dict
crashes at the first `obj.get` (`none`) while an empty one performs zero
iterations and renders no card; a number, boolean or `None` is not
iterable at all (`none`). -/
def cardsOfLine : PyVal → Option (List HtmlCard)
  | .obj fs =>
    match pyGetD fs "results".data (.arr []) with
    | .arr objs => cardsOfObjs objs
    | .str s => if s.isEmpty then some [] else none
    | .obj gs => if gs.isEmpty then some [] else none
    | _ => none
  | _ => none

/-- The card list of the whole report built by `generate_html` from the
JSONL lines (a crash while processing any line aborts the report). -/
def cardsOfLines : List PyVal → Option (List HtmlCard)
  | [] => some []
  | l :: ls =>
    match cardsOfLine l, cardsOfLines ls with
    | some cs, some rest => some (cs ++ rest)
    | _, _ => none

/-- `generate_html`, abstracted to the list of cards it renders. -/
def generate_html (lines : List PyVal) : Option (List HtmlCard) :=
  cardsOfLines lines

/-! ## Helper lemmas -/

theorem extract_json_some (loads : List Char → Option PyVal) (rt : List Char) :
    extract_json loads (some rt) =
      match pyFind (pyStrip rt) tagOpen, pyFind (pyStrip rt) tagClose with
      | some start, some stop =>
        match loads (pyStrip (((pyStrip rt).drop (start + tagOpen.length)).take
            (stop - (start + tagOpen.length)))) with
        | some data => (some (wrapDict data), [])
        | none => (none, [.decodeError])
      | _, _ => (none, [.missingTags]) := rfl

theorem extract_json_noTags (loads : List Char → Option PyVal) (rt : List Char)
    (h : pyFind (pyStrip rt) tagOpen = none ∨ pyFind (pyStrip rt) tagClose = none) :
    extract_json loads (some rt) = (none, [.missingTags]) := by
  rw [extract_json_some]
  rcases h with h | h
  · rw [h]
  · rw [h]
    cases pyFind (pyStrip rt) tagOpen <;> rfl

theorem extract_json_tags (loads : List Char → Option PyVal) (rt : List Char)
    (start stop : Nat)
    (h1 : pyFind (pyStrip rt) tagOpen = some start)
    (h2 : pyFind (pyStrip rt) tagClose = some stop) :
    extract_json loads (some rt) =
      match loads (pyStrip (((pyStrip rt).drop (start + tagOpen.length)).take
          (stop - (start + tagOpen.length)))) with
      | some data => (some (wrapDict data), [])
      | none => (none, [.decodeError]) := by
  rw [extract_json_some, h1, h2]

theorem chunk_tickets_nil : chunk_tickets [] = [] := by
  rw [chunk_tickets]

theorem chunk_tickets_cons (t : List Char) (ts : List (List Char)) :
    chunk_tickets (t :: ts) =
      sepJoin chunkSep ((t :: ts).take TICKETS_PER_CHUNK)
        :: chunk_tickets ((t :: ts).drop TICKETS_PER_CHUNK) := by
  rw [chunk_tickets]

theorem groupsOf_nil : groupsOf [] = [] := by
  rw [groupsOf]

theorem groupsOf_cons (t : List Char) (ts : List (List Char)) :
    groupsOf (t :: ts) =
      (t :: ts).take TICKETS_PER_CHUNK :: groupsOf ((t :: ts).drop TICKETS_PER_CHUNK) := by
  rw [groupsOf]

theorem chunk_tickets_core :
    ∀ (n : Nat) (ts : List (List Char)), ts.length ≤ n →
      (chunk_tickets ts).length = (ts.length + 2) / 3
      ∧ chunk_tickets ts = (groupsOf ts).map (sepJoin chunkSep)
      ∧ (groupsOf ts).flatten = ts := by
  intro n
  induction n with
  | zero =>
    intro ts h
    have hts : ts = [] := List.eq_nil_of_length_eq_zero (Nat.le_zero.mp h)
    subst hts
    exact ⟨by rw [chunk_tickets_nil]; rfl, by rw [chunk_tickets_nil, groupsOf_nil]; rfl,
      by rw [groupsOf_nil]; rfl⟩
  | succ n ih =>
    intro ts h
    match ts with
    | [] =>
      exact ⟨by rw [chunk_tickets_nil]; rfl, by rw [chunk_tickets_nil, groupsOf_nil]; rfl,
        by rw [groupsOf_nil]; rfl⟩
    | t :: ts' =>
      have hlen : ((t :: ts').drop TICKETS_PER_CHUNK).length ≤ n := by
        simp only [List.length_drop, List.length_cons, TICKETS_PER_CHUNK]
        simp only [List.length_cons] at h
        omega
      obtain ⟨ih1, ih2, ih3⟩ := ih ((t :: ts').drop TICKETS_PER_CHUNK) hlen
      refine ⟨?_, ?_, ?_⟩
      · rw [chunk_tickets_cons]
        simp only [TICKETS_PER_CHUNK] at ih1 ⊢
        rw [List.length_cons, ih1]
        simp only [List.length_drop, List.length_cons]
        omega
      · rw [chunk_tickets_cons, groupsOf_cons, List.map_cons, ih2]
      · rw [groupsOf_cons, List.flatten_cons, ih3, List.take_append_drop]

theorem chunk_tickets_get :
    ∀ (n : Nat) (ts : List (List Char)) (j : Nat), ts.length ≤ n →
      (chunk_tickets ts)[j]? =
        if 3 * j < ts.length
        then some (sepJoin chunkSep ((ts.drop (3 * j)).take TICKETS_PER_CHUNK))
        else none := by
  intro n
  induction n with
  | zero =>
    intro ts j h
    have hts : ts = [] := List.eq_nil_of_length_eq_zero (Nat.le_zero.mp h)
    subst hts
    rw [chunk_tickets_nil]
    simp
  | succ n ih =>
    intro ts j h
    match ts with
    | [] =>
      rw [chunk_tickets_nil]
      simp
    | t :: ts' =>
      have hlen : ((t :: ts').drop TICKETS_PER_CHUNK).length ≤ n := by
        simp only [List.length_drop, List.length_cons, TICKETS_PER_CHUNK]
        simp only [List.length_cons] at h
        omega
      rw [chunk_tickets_cons]
      match j with
      | 0 =>
        simp only [List.getElem?_cons_zero, List.length_cons, Nat.mul_zero, List.drop_zero]
        rw [if_pos (by omega)]
      | j + 1 =>
        rw [List.getElem?_cons_succ, ih ((t :: ts').drop TICKETS_PER_CHUNK) j hlen]
        have hdd : ((t :: ts').drop TICKETS_PER_CHUNK).drop (3 * j)
            = (t :: ts').drop (3 * (j + 1)) := by
          rw [List.drop_drop]
          congr 1
          simp [TICKETS_PER_CHUNK]
          ring
        rw [hdd]
        have hiff : 3 * j < ((t :: ts').drop TICKETS_PER_CHUNK).length
            ↔ 3 * (j + 1) < (t :: ts').length := by
          simp only [List.length_drop, List.length_cons, TICKETS_PER_CHUNK]
          omega
        by_cases hc : 3 * (j + 1) < (t :: ts').length
        · rw [if_pos (hiff.mpr hc), if_pos hc]
        · rw [if_neg (fun hh => hc (hiff.mp hh)), if_neg hc]

theorem pyGetD_none {o : List (List Char × PyVal)} {k : List Char} {d : PyVal}
    (h : pyGet o k = none) : pyGetD o k d = d := by
  rw [pyGetD, h]
  rfl

theorem fallbackLink_str (tk : List Char) :
    fallbackLink (PyVal.str tk) =
      some (if tk.isEmpty then PyVal.str "#".data else PyVal.str (JIRA_DOMAIN ++ tk)) := by
  cases tk <;> rfl

theorem linkOf_absent {o : List (List Char × PyVal)}
    (h : pyGet o "link".data = none) :
    linkOf o = fallbackLink (pyGetD o "ticket_key".data (PyVal.str [])) := by
  unfold linkOf
  rw [h]

theorem linkOf_present {o : List (List Char × PyVal)} {lv : PyVal}
    (h : pyGet o "link".data = some lv) :
    linkOf o = if pyTruthy lv then some lv
      else fallbackLink (pyGetD o "ticket_key".data (PyVal.str [])) := by
  unfold linkOf
  rw [h]

theorem isEmpty_map_eq {α β : Type} (f : α → β) (l : List α) :
    (l.map f).isEmpty = l.isEmpty := by
  cases l <;> rfl

theorem safeItems_eq (xs : List PyVal) :
    xs.filterMap (fun it => if isNone it then none else some (pyStr it))
      = (xs.filter (fun it => !isNone it)).map pyStr := by
  induction xs with
  | nil => rfl
  | cons x xs ih =>
    cases hx : isNone x <;> simp [List.filterMap_cons, List.filter_cons, hx, ih]

theorem list_to_html_arr (xs : List PyVal) :
    list_to_html (PyVal.arr xs) =
      some (if (xs.filter (fun it => !isNone it)).isEmpty then liDash
        else ((xs.filter (fun it => !isNone it)).map (fun it => liItem (pyStr it))).flatten) := by
  match xs with
  | [] => rfl
  | x :: xs' =>
    show (if pyTruthy (PyVal.arr (x :: xs')) = false then some liDash else _) = _
    rw [if_neg (by simp [pyTruthy])]
    show (match pyIter (PyVal.arr (x :: xs')) with
      | none => none
      | some ys =>
        let safe_items := ys.filterMap (fun it => if isNone it then none else some (pyStr it))
        if safe_items.isEmpty then some liDash
        else some ((safe_items.map liItem).flatten)) = _
    simp only [pyIter, safeItems_eq, List.map_map, isEmpty_map_eq]
    rw [← apply_ite some]
    rfl

/-! ## Claims -/

/-- Claim C3: the script does not crash on malformed model output — for
every input (`None` or any string) and every behaviour of the external
JSON decoder, `extract_json` is total (it is a Lean function) and returns
either `None` or a value obtained from a successful decode of the
tag-delimited block (a dict wrapped into a one-element list). -/
theorem claim3_extract_json_total (loads : List Char → Option PyVal)
    (raw_text : Option (List Char)) :
    (extract_json loads raw_text).1 = none ∨
      ∃ block v, loads block = some v ∧
        (extract_json loads raw_text).1 = some (wrapDict v) := by
  match raw_text with
  | none => exact Or.inl rfl
  | some rt =>
    cases h1 : pyFind (pyStrip rt) tagOpen with
    | none => rw [extract_json_noTags loads rt (Or.inl h1)]
              exact Or.inl rfl
    | some start =>
      cases h2 : pyFind (pyStrip rt) tagClose with
      | none => rw [extract_json_noTags loads rt (Or.inr h2)]
                exact Or.inl rfl
      | some stop =>
        rw [extract_json_tags loads rt start stop h1 h2]
        cases hl : loads (pyStrip (((pyStrip rt).drop (start + tagOpen.length)).take
            (stop - (start + tagOpen.length)))) with
        | none => exact Or.inl rfl
        | some v => exact Or.inr ⟨_, v, hl, rfl⟩

/-- Claim C9: when the tag-delimited block decodes to a JSON object,
`extract_json` returns a one-element list containing it; a decoded array
is returned unchanged; any other decoded value (string, number, boolean,
null) is returned as-is without being wrapped — so the successful result
is not always a list (witnessed by the number reply). -/
theorem claim9_wrap_behaviour (loads : List Char → Option PyVal) (s : List Char)
    (start stop : Nat)
    (h1 : pyFind (pyStrip s) tagOpen = some start)
    (h2 : pyFind (pyStrip s) tagClose = some stop) :
    (∀ fs, loads (pyStrip (((pyStrip s).drop (start + tagOpen.length)).take
          (stop - (start + tagOpen.length)))) = some (PyVal.obj fs) →
        (extract_json loads (some s)).1 = some (PyVal.arr [PyVal.obj fs]))
    ∧ (∀ xs, loads (pyStrip (((pyStrip s).drop (start + tagOpen.length)).take
          (stop - (start + tagOpen.length)))) = some (PyVal.arr xs) →
        (extract_json loads (some s)).1 = some (PyVal.arr xs))
    ∧ (∀ v, (∀ fs, v ≠ PyVal.obj fs) →
        loads (pyStrip (((pyStrip s).drop (start + tagOpen.length)).take
          (stop - (start + tagOpen.length)))) = some v →
        (extract_json loads (some s)).1 = some v)
    ∧ ((extract_json loadsEx (some "<JSON>3</JSON>".data)).1 = some (PyVal.num 3)
        ∧ ∀ xs, PyVal.num 3 ≠ PyVal.arr xs) := by
  refine ⟨fun fs hl => ?_, fun xs hl => ?_, fun v hv hl => ?_, rfl, fun xs h => by cases h⟩
  · rw [extract_json_tags loads s start stop h1 h2, hl]; rfl
  · rw [extract_json_tags loads s start stop h1 h2, hl]; rfl
  · rw [extract_json_tags loads s start stop h1 h2, hl]
    cases v with
    | obj fs => exact absurd rfl (hv fs)
    | str s => rfl
    | num n => rfl
    | bool b => rfl
    | null => rfl
    | arr xs => rfl

/-- Witness for C9 on a concrete reply whose block decodes to a JSON
object: the object is wrapped into a one-element list. -/
theorem claim9_wrap_behaviour_witness :
    pyFind (pyStrip "<JSON>\x7b\x7d</JSON>".data) tagOpen = some 0
    ∧ pyFind (pyStrip "<JSON>\x7b\x7d</JSON>".data) tagClose = some 8
    ∧ (extract_json loadsEx (some "<JSON>\x7b\x7d</JSON>".data)).1
        = some (PyVal.arr [PyVal.obj []]) := by
  refine ⟨rfl, rfl, ?_⟩
  exact (claim9_wrap_behaviour loadsEx "<JSON>\x7b\x7d</JSON>".data 0 8 rfl rfl).1 [] rfl

/-- Counterexample to claim C2: a reply consisting of raw HTML table rows
is not accepted — `extract_json` rejects it (`None`, missing tags), so the
parsing step does not extract results from raw HTML table rows. -/
theorem claim2_counterexample :
    (extract_json loadsEx
        (some "<tr><td>G7APP-101</td><td>Solvable Bug</td></tr>".data)).1 = none := rfl

/-- Claim C2 as amended: the parsing step accepts only replies that wrap a
JSON value in `<JSON>`/`</JSON>` tags — a reply whose stripped text lacks
either tag (raw HTML table rows in particular) yields `None`, while a
reply whose tag-delimited block decodes to a JSON array yields exactly
that array. -/
theorem claim2_amended_json_only (loads : List Char → Option PyVal) (s : List Char) :
    ((pyFind (pyStrip s) tagOpen = none ∨ pyFind (pyStrip s) tagClose = none) →
        (extract_json loads (some s)).1 = none)
    ∧ (∀ start stop xs,
        pyFind (pyStrip s) tagOpen = some start →
        pyFind (pyStrip s) tagClose = some stop →
        loads (pyStrip (((pyStrip s).drop (start + tagOpen.length)).take
          (stop - (start + tagOpen.length)))) = some (PyVal.arr xs) →
        (extract_json loads (some s)).1 = some (PyVal.arr xs)) := by
  constructor
  · intro h
    rw [extract_json_noTags loads s h]
  · intro start stop xs h1 h2 hl
    rw [extract_json_tags loads s start stop h1 h2, hl]; rfl

/-- Claim C5: `chunk_tickets` returns exactly `⌈n / 3⌉` chunks; chunk `j`
is the `"\n\n---\n\n"`-join of tickets `3j .. 3j+2` (fewer for the final
chunk); the underlying slices cover every ticket exactly once in order. -/
theorem claim5_chunking (tickets : List (List Char)) :
    TICKETS_PER_CHUNK = 3
    ∧ (chunk_tickets tickets).length = (tickets.length + 2) / 3
    ∧ (∀ j, (chunk_tickets tickets)[j]? =
        if 3 * j < tickets.length
        then some (sepJoin chunkSep ((tickets.drop (3 * j)).take TICKETS_PER_CHUNK))
        else none)
    ∧ chunk_tickets tickets = (groupsOf tickets).map (sepJoin chunkSep)
    ∧ (groupsOf tickets).flatten = tickets := by
  obtain ⟨h1, h2, h3⟩ := chunk_tickets_core tickets.length tickets le_rfl
  exact ⟨rfl, h1, fun j => chunk_tickets_get tickets.length tickets j le_rfl, h2, h3⟩

/-- Claim C10: on a list (or `None`) input, `list_to_html` returns a
non-empty string: `None` entries are dropped, the remaining entries are
`str`-converted and rendered in order as `<li>` items, and an empty list,
`None`, or a list of only `None` entries yields exactly `"<li>-</li>"`. -/
theorem claim10_list_to_html (xs : List PyVal) :
    list_to_html (PyVal.arr xs) =
      some (if (xs.filter (fun it => !isNone it)).isEmpty then liDash
        else ((xs.filter (fun it => !isNone it)).map (fun it => liItem (pyStr it))).flatten)
    ∧ (∃ r, list_to_html (PyVal.arr xs) = some r ∧ r ≠ [])
    ∧ list_to_html PyVal.null = some liDash
    ∧ (∀ n, list_to_html (PyVal.arr (List.replicate n PyVal.null)) = some liDash) := by
  have hrep : ∀ n : Nat, (List.replicate n PyVal.null).filter (fun it => !isNone it) = [] := by
    intro n
    induction n with
    | zero => rfl
    | succ n ih => simp [List.replicate_succ, List.filter_cons, isNone, ih]
  refine ⟨list_to_html_arr xs, ?_, rfl, fun n => by rw [list_to_html_arr, hrep n]; rfl⟩
  rw [list_to_html_arr xs]
  refine ⟨_, rfl, ?_⟩
  by_cases hc : (xs.filter (fun it => !isNone it)).isEmpty = true
  · rw [if_pos hc]
    decide
  · rw [if_neg hc]
    match hf : xs.filter (fun it => !isNone it) with
    | [] => exact absurd (by rw [hf]; rfl) hc
    | a :: l =>
      rw [List.map_cons, List.flatten_cons]
      apply List.ne_nil_of_length_pos
      rw [List.length_append]
      have h4 : 0 < (liItem (pyStr a)).length := by
        rw [liItem, List.length_append, List.length_append]
        have h5 : ("<li>".data).length = 4 := rfl
        omega
      omega

/-- Claim C7: in the HTML rendering, defaults are substituted for missing
keys — absent `ticket_key`, `status`, `category`, `summary` become the
empty string, absent list fields become empty lists, and an absent or
falsy `link` is replaced by `JIRA_DOMAIN ++ ticket_key` when the ticket
key is non-empty and by `"#"` otherwise. -/
theorem claim7_defaults (o : List (List Char × PyVal)) (tk : List Char)
    (htk : pyGetD o "ticket_key".data (PyVal.str []) = PyVal.str tk) :
    ∃ cd, cardData o = some cd
      ∧ (pyGet o "ticket_key".data = none → cd.ticket_key = PyVal.str [])
      ∧ (pyGet o "status".data = none → cd.status = PyVal.str [])
      ∧ (pyGet o "category".data = none → cd.category = PyVal.str [])
      ∧ (pyGet o "summary".data = none → cd.summary = PyVal.str [])
      ∧ (pyGet o "root_cause".data = none → cd.root_cause = PyVal.arr [])
      ∧ (pyGet o "reasoning".data = none → cd.reasoning = PyVal.arr [])
      ∧ (pyGet o "fix_recommendation".data = none → cd.fix_recommendation = PyVal.arr [])
      ∧ (pyGet o "risk".data = none → cd.risk = PyVal.arr [])
      ∧ (pyGet o "missing_details".data = none → cd.missing_details = PyVal.arr [])
      ∧ ((pyGet o "link".data = none
            ∨ ∃ lv, pyGet o "link".data = some lv ∧ pyTruthy lv = false) →
          cd.link = if tk.isEmpty then PyVal.str "#".data
            else PyVal.str (JIRA_DOMAIN ++ tk)) := by
  have hfb : fallbackLink (pyGetD o "ticket_key".data (PyVal.str [])) =
      some (if tk.isEmpty then PyVal.str "#".data else PyVal.str (JIRA_DOMAIN ++ tk)) := by
    rw [htk, fallbackLink_str]
  simp only [cardData]
  cases hl : pyGet o "link".data with
  | none =>
    rw [linkOf_absent hl, hfb]
    exact ⟨_, rfl, fun h => pyGetD_none h, fun h => pyGetD_none h, fun h => pyGetD_none h,
      fun h => pyGetD_none h, fun h => pyGetD_none h, fun h => pyGetD_none h,
      fun h => pyGetD_none h, fun h => pyGetD_none h, fun h => pyGetD_none h,
      fun _ => rfl⟩
  | some lv =>
    rw [linkOf_present hl]
    cases htr : pyTruthy lv with
    | true =>
      rw [if_pos rfl]
      refine ⟨_, rfl, fun h => pyGetD_none h, fun h => pyGetD_none h, fun h => pyGetD_none h,
        fun h => pyGetD_none h, fun h => pyGetD_none h, fun h => pyGetD_none h,
        fun h => pyGetD_none h, fun h => pyGetD_none h, fun h => pyGetD_none h,
        fun hcase => ?_⟩
      rcases hcase with hnone | ⟨lv2, hlv2, htr2⟩
      · cases hnone
      · injection hlv2 with he
        subst he
        rw [htr] at htr2
        cases htr2
    | false =>
      rw [if_neg Bool.false_ne_true, hfb]
      exact ⟨_, rfl, fun h => pyGetD_none h, fun h => pyGetD_none h, fun h => pyGetD_none h,
        fun h => pyGetD_none h, fun h => pyGetD_none h, fun h => pyGetD_none h,
        fun h => pyGetD_none h, fun h => pyGetD_none h, fun h => pyGetD_none h,
        fun _ => rfl⟩

/-- Witness for C7 at the empty result object: every key is absent, all
defaults apply and the link falls back to `"#"`. -/
theorem claim7_defaults_witness :
    pyGetD [] "ticket_key".data (PyVal.str []) = PyVal.str ([] : List Char)
    ∧ (∃ cd, cardData [] = some cd
      ∧ (pyGet [] "ticket_key".data = none → cd.ticket_key = PyVal.str [])
      ∧ (pyGet [] "status".data = none → cd.status = PyVal.str [])
      ∧ (pyGet [] "category".data = none → cd.category = PyVal.str [])
      ∧ (pyGet [] "summary".data = none → cd.summary = PyVal.str [])
      ∧ (pyGet [] "root_cause".data = none → cd.root_cause = PyVal.arr [])
      ∧ (pyGet [] "reasoning".data = none → cd.reasoning = PyVal.arr [])
      ∧ (pyGet [] "fix_recommendation".data = none → cd.fix_recommendation = PyVal.arr [])
      ∧ (pyGet [] "risk".data = none → cd.risk = PyVal.arr [])
      ∧ (pyGet [] "missing_details".data = none → cd.missing_details = PyVal.arr [])
      ∧ ((pyGet [] "link".data = none
            ∨ ∃ lv, pyGet [] "link".data = some lv ∧ pyTruthy lv = false) →
          cd.link = if ([] : List Char).isEmpty then PyVal.str "#".data
            else PyVal.str (JIRA_DOMAIN ++ ([] : List Char)))) :=
  ⟨rfl, claim7_defaults [] [] rfl⟩

theorem processChunk_requests (loads : List Char → Option PyVal) (res : NetResult)
    (idx : Nat) (chunk : List Char) :
    (processChunk loads res idx chunk).requests = (call_gemini res chunk).requests := by
  simp only [processChunk]
  by_cases h : pyParsedIsNone (extract_json loads (call_gemini res chunk).reply).1 = true
  · rw [if_pos h]
  · rw [if_neg h]

theorem processChunk_idx (loads : List Char → Option PyVal) (res : NetResult)
    (idx : Nat) (chunk : List Char) :
    (processChunk loads res idx chunk).idx = idx := by
  simp only [processChunk]
  by_cases h : pyParsedIsNone (extract_json loads (call_gemini res chunk).reply).1 = true
  · rw [if_pos h]
  · rw [if_neg h]

theorem call_gemini_requests (res : NetResult) (chunk : List Char) :
    (call_gemini res chunk).requests = if chunk.isEmpty then [] else [chunk] := by
  by_cases h : chunk.isEmpty
  · rw [call_gemini.eq_def, if_pos h, if_pos h]
  · rw [call_gemini.eq_def, if_neg h, if_neg h]
    cases res <;> rfl

theorem runChunksFrom_requests (loads : List Char → Option PyVal) (net : Nat → NetResult) :
    ∀ (cs : List (List Char)) (k : Nat),
      requestsOf (runChunksFrom loads net k cs) = cs.filter (fun c => !c.isEmpty) := by
  intro cs
  induction cs with
  | nil => intro k; rfl
  | cons c cs ih =>
    intro k
    show requestsOf (processChunk loads (net k) k c :: runChunksFrom loads net (k + 1) cs) = _
    rw [requestsOf.eq_def, List.map_cons, List.flatten_cons]
    show (processChunk loads (net k) k c).requests
        ++ requestsOf (runChunksFrom loads net (k + 1) cs) = _
    rw [ih (k + 1), processChunk_requests, call_gemini_requests]
    by_cases h : c.isEmpty
    · rw [if_pos h, List.filter_cons, if_neg (by simp [h])]
      rfl
    · rw [if_neg h, List.filter_cons, if_pos (by simp [h])]
      rfl

theorem runChunksFrom_idx (loads : List Char → Option PyVal) (net : Nat → NetResult) :
    ∀ (cs : List (List Char)) (k : Nat),
      (runChunksFrom loads net k cs).map ChunkOut.idx = List.range' k cs.length := by
  intro cs
  induction cs with
  | nil => intro k; rfl
  | cons c cs ih =>
    intro k
    show (processChunk loads (net k) k c :: runChunksFrom loads net (k + 1) cs).map _ = _
    rw [List.map_cons, processChunk_idx, ih (k + 1), List.length_cons, List.range'_succ]

theorem runChunksFrom_req_le (loads : List Char → Option PyVal) (net : Nat → NetResult) :
    ∀ (cs : List (List Char)) (k : Nat) (o : ChunkOut),
      o ∈ runChunksFrom loads net k cs → o.requests.length ≤ 1 := by
  intro cs
  induction cs with
  | nil => intro k o ho; cases ho
  | cons c cs ih =>
    intro k o ho
    rcases List.mem_cons.mp ho with rfl | hmem
    · rw [processChunk_requests, call_gemini_requests]
      by_cases h : c.isEmpty
      · rw [if_pos h]; exact Nat.zero_le 1
      · rw [if_neg h]; exact Nat.le_refl 1
    · exact ih (k + 1) o hmem

theorem processChunk_fail {loads : List Char → Option PyVal} {res : NetResult}
    {idx : Nat} {chunk : List Char}
    (h : (extract_json loads (call_gemini res chunk).reply).1 = none) :
    processChunk loads res idx chunk =
      ⟨idx, (call_gemini res chunk).requests, none,
        (call_gemini res chunk).msgs
          ++ (extract_json loads (call_gemini res chunk).reply).2 ++ [.skipping]⟩ := by
  simp only [processChunk]
  rw [h, if_pos (show pyParsedIsNone none = true from rfl)]

theorem processChunk_null {loads : List Char → Option PyVal} {res : NetResult}
    {idx : Nat} {chunk : List Char} {v : PyVal}
    (h : (extract_json loads (call_gemini res chunk).reply).1 = some v)
    (hn : isNone v = true) :
    processChunk loads res idx chunk =
      ⟨idx, (call_gemini res chunk).requests, none,
        (call_gemini res chunk).msgs
          ++ (extract_json loads (call_gemini res chunk).reply).2 ++ [.skipping]⟩ := by
  simp only [processChunk]
  rw [h, if_pos (show pyParsedIsNone (some v) = true from hn)]

theorem processChunk_ok {loads : List Char → Option PyVal} {res : NetResult}
    {idx : Nat} {chunk : List Char} {v : PyVal}
    (h : (extract_json loads (call_gemini res chunk).reply).1 = some v)
    (hn : isNone v = false) :
    processChunk loads res idx chunk =
      ⟨idx, (call_gemini res chunk).requests, some v,
        (call_gemini res chunk).msgs
          ++ (extract_json loads (call_gemini res chunk).reply).2⟩ := by
  simp only [processChunk]
  have hn2 : ¬ pyParsedIsNone (some v) = true := by
    show ¬ isNone v = true
    rw [hn]
    exact Bool.false_ne_true
  rw [h, if_neg hn2]

theorem jsonl_nil : jsonl [] = [] := rfl

theorem jsonl_cons_none {o : ChunkOut} {outs : List ChunkOut} (h : o.line = none) :
    jsonl (o :: outs) = jsonl outs := by
  rw [jsonl, jsonl]
  exact List.filterMap_cons_none (by rw [h]; rfl)

theorem jsonl_cons_some {o : ChunkOut} {outs : List ChunkOut} {v : PyVal}
    (h : o.line = some v) :
    jsonl (o :: outs) = (o.idx, v) :: jsonl outs := by
  rw [jsonl, jsonl]
  exact List.filterMap_cons_some (by rw [h]; rfl)

theorem runChunksFrom_getElem? (loads : List Char → Option PyVal) (net : Nat → NetResult) :
    ∀ (cs : List (List Char)) (k j : Nat),
      (runChunksFrom loads net k cs)[j]?
        = (cs[j]?).map (fun c => processChunk loads (net (k + j)) (k + j) c) := by
  intro cs
  induction cs with
  | nil => intro k j; simp [runChunksFrom]
  | cons c cs ih =>
    intro k j
    show (processChunk loads (net k) k c :: runChunksFrom loads net (k + 1) cs)[j]? = _
    match j with
    | 0 =>
      rw [List.getElem?_cons_zero, List.getElem?_cons_zero]
      rfl
    | j + 1 =>
      rw [List.getElem?_cons_succ, List.getElem?_cons_succ, ih (k + 1) j]
      have hadd : k + 1 + j = k + (j + 1) := by omega
      rw [hadd]

theorem runChunksFrom_mem (loads : List Char → Option PyVal) (net : Nat → NetResult) :
    ∀ (cs : List (List Char)) (k : Nat) (o : ChunkOut),
      o ∈ runChunksFrom loads net k cs →
        ∃ j c, cs[j]? = some c ∧ o = processChunk loads (net (k + j)) (k + j) c := by
  intro cs
  induction cs with
  | nil => intro k o ho; cases ho
  | cons c cs ih =>
    intro k o ho
    rcases List.mem_cons.mp ho with rfl | hmem
    · exact ⟨0, c, by rw [List.getElem?_cons_zero], rfl⟩
    · obtain ⟨j, c2, h1, h2⟩ := ih (k + 1) o hmem
      refine ⟨j + 1, c2, by rw [List.getElem?_cons_succ]; exact h1, ?_⟩
      have hadd : k + 1 + j = k + (j + 1) := by omega
      rw [← hadd]
      exact h2

theorem jsonl_filter_congr (loads : List Char → Option PyVal)
    (net net' : Nat → NetResult) (i : Nat) (hagree : ∀ j, j ≠ i → net j = net' j) :
    ∀ (cs : List (List Char)) (k : Nat),
      (jsonl (runChunksFrom loads net k cs)).filter (fun q => q.1 != i)
        = (jsonl (runChunksFrom loads net' k cs)).filter (fun q => q.1 != i) := by
  intro cs
  induction cs with
  | nil => intro k; rfl
  | cons c cs ih =>
    intro k
    show (jsonl (processChunk loads (net k) k c :: runChunksFrom loads net (k + 1) cs)).filter _
      = (jsonl (processChunk loads (net' k) k c :: runChunksFrom loads net' (k + 1) cs)).filter _
    by_cases hk : k = i
    · subst hk
      cases h1 : (processChunk loads (net k) k c).line with
      | none => rw [jsonl_cons_none h1]
                cases h2 : (processChunk loads (net' k) k c).line with
                | none => rw [jsonl_cons_none h2]
                          exact ih (k + 1)
                | some v => rw [jsonl_cons_some h2, List.filter_cons,
                              if_neg (by simp [processChunk_idx])]
                            exact ih (k + 1)
      | some v => rw [jsonl_cons_some h1, List.filter_cons,
                    if_neg (by simp [processChunk_idx])]
                  cases h2 : (processChunk loads (net' k) k c).line with
                  | none => rw [jsonl_cons_none h2]
                            exact ih (k + 1)
                  | some w => rw [jsonl_cons_some h2, List.filter_cons,
                                if_neg (by simp [processChunk_idx])]
                              exact ih (k + 1)
    · rw [hagree k hk]
      cases h1 : (processChunk loads (net' k) k c).line with
      | none => rw [jsonl_cons_none h1, jsonl_cons_none h1]
                exact ih (k + 1)
      | some v => rw [jsonl_cons_some h1, jsonl_cons_some h1, List.filter_cons, List.filter_cons]
                  rw [ih (k + 1)]

/-- Claim C1: a chunk whose processing fails at any stage (network error,
non-200 status, bad response shape, missing tags, or decode error) prints
a message, writes no JSON-lines entry for that chunk, and the loop
continues; the entries produced for every other chunk do not depend on the
failing chunk's network outcome. -/
theorem claim1_failure_isolation (loads : List Char → Option PyVal)
    (net net' : Nat → NetResult) (chunks : List (List Char)) (i : Nat) (c : List Char)
    (hc : chunks[i]? = some c)
    (hfail : (extract_json loads (call_gemini (net i) c).reply).1 = none)
    (hagree : ∀ j, j ≠ i → net j = net' j) :
    (∀ q ∈ jsonl (runChunks loads net chunks), q.1 ≠ i)
    ∧ (∃ o ∈ runChunks loads net chunks, o.idx = i ∧ o.line = none ∧ o.msgs ≠ [])
    ∧ (jsonl (runChunks loads net chunks)).filter (fun q => q.1 != i)
        = (jsonl (runChunks loads net' chunks)).filter (fun q => q.1 != i) := by
  refine ⟨?_, ?_, jsonl_filter_congr loads net net' i hagree chunks 0⟩
  · intro q hq
    obtain ⟨o, ho, hfo⟩ := List.mem_filterMap.mp hq
    obtain ⟨j, c2, hj, rfl⟩ := runChunksFrom_mem loads net chunks 0 o ho
    rw [Nat.zero_add] at hfo
    intro hqi
    cases hv : (processChunk loads (net j) j c2).line with
    | none => rw [hv] at hfo; cases hfo
    | some v =>
      rw [hv] at hfo
      injection hfo with hq2
      have hji : j = i := by
        rw [← hq2] at hqi
        rw [processChunk_idx] at hqi
        exact hqi
      subst hji
      rw [hj] at hc
      injection hc with hcc
      subst hcc
      rw [processChunk_fail hfail] at hv
      exact Option.noConfusion hv
  · refine ⟨processChunk loads (net i) i c, ?_, ?_, ?_, ?_⟩
    · have hh : (runChunks loads net chunks)[i]? = some (processChunk loads (net i) i c) := by
        rw [runChunks, runChunksFrom_getElem? loads net chunks 0 i, Nat.zero_add, hc]
        rfl
      exact List.getElem?_mem hh
    · rw [processChunk_idx]
    · rw [processChunk_fail hfail]
    · rw [processChunk_fail hfail]
      exact List.append_ne_nil_of_right_ne_nil _ (List.cons_ne_nil _ _)

/-- Witness for C1: a single chunk whose POST raises a network error
produces no JSON-lines entry but a printed message, and the (empty) set of
other chunks is unaffected. -/
theorem claim1_failure_isolation_witness :
    (["x".data][0]? = some "x".data)
    ∧ (extract_json loadsEx (call_gemini NetResult.netError "x".data).reply).1 = none
    ∧ ((∀ q ∈ jsonl (runChunks loadsEx (fun _ => NetResult.netError) ["x".data]), q.1 ≠ 0)
      ∧ (∃ o ∈ runChunks loadsEx (fun _ => NetResult.netError) ["x".data],
          o.idx = 0 ∧ o.line = none ∧ o.msgs ≠ [])
      ∧ (jsonl (runChunks loadsEx (fun _ => NetResult.netError) ["x".data])).filter
            (fun q => q.1 != 0)
          = (jsonl (runChunks loadsEx (fun _ => NetResult.netError) ["x".data])).filter
            (fun q => q.1 != 0)) :=
  ⟨rfl, rfl,
    claim1_failure_isolation loadsEx (fun _ => NetResult.netError)
      (fun _ => NetResult.netError) ["x".data] 0 "x".data rfl rfl (fun _ _ => rfl)⟩

theorem matchAt_some {text : List Char} {pos d : Nat}
    (h : matchAt text pos = some d) : matchEndAt text pos = some d := by
  unfold matchAt at h
  split at h
  · exact h
  · cases h

theorem drop_head?_lt {α : Type} {l : List α} {m : Nat} {c : α}
    (h : (l.drop m).head? = some c) : m < l.length := by
  have h2 : l.drop m ≠ [] := by
    intro hn
    rw [hn] at h
    cases h
  have h3 : 0 < (l.drop m).length := List.length_pos.mpr h2
  rw [List.length_drop] at h3
  omega

theorem matchEndAt_le {text : List Char} {pos d : Nat}
    (h : matchEndAt text pos = some d) : pos + d + 1 ≤ text.length := by
  simp only [matchEndAt] at h
  split at h
  · split at h
    · split at h
      · split at h
        · injection h with hd
          rename_i hA hB hC hD
          have h5 := drop_head?_lt hD.2
          rw [List.length_drop] at h5
          rw [List.length_drop] at h5
          omega
        · cases h
      · cases h
    · cases h
  · cases h

theorem findFrom_correct (text : List Char) :
    ∀ (n pos : Nat), text.length + 1 - pos ≤ n →
      ∀ off d, findFrom text pos = some (off, d) →
        matchAt text (pos + off) = some d ∧ pos + off ≤ text.length := by
  intro n
  induction n with
  | zero =>
    intro pos h off d hf
    unfold findFrom at hf
    rw [dif_pos (by omega)] at hf
    cases hf
  | succ n ih =>
    intro pos h off d hf
    unfold findFrom at hf
    by_cases hp : text.length < pos
    · rw [dif_pos hp] at hf
      cases hf
    · rw [dif_neg hp] at hf
      cases hm : matchAt text pos with
      | some d2 =>
        rw [hm] at hf
        injection hf with hpair
        obtain ⟨h1, h2⟩ := Prod.mk.injEq _ _ _ _ ▸ hpair
        subst h1
        subst h2
        exact ⟨by rw [Nat.add_zero]; exact hm, by omega⟩
      | none =>
        rw [hm] at hf
        cases hf2 : findFrom text (pos + 1) with
        | none =>
          rw [hf2] at hf
          cases hf
        | some q =>
          obtain ⟨off2, d2⟩ := q
          rw [hf2] at hf
          injection hf with hpair
          obtain ⟨h1, h2⟩ := Prod.mk.injEq _ _ _ _ ▸ hpair
          subst h1
          subst h2
          obtain ⟨hm2, hb2⟩ := ih (pos + 1) (by omega) off2 d2 hf2
          constructor
          · rw [show pos + (off2 + 1) = pos + 1 + off2 by omega]
            exact hm2
          · omega

theorem finditer_mem (text : List Char) :
    ∀ (n pos : Nat), text.length + 1 - pos ≤ n →
      ∀ p ∈ finditer text pos,
        pos ≤ p.1 ∧ p.1 < p.2 ∧ p.2 ≤ text.length + 1
        ∧ ∃ d, matchAt text p.1 = some d ∧ p.2 = p.1 + d + 1 := by
  intro n
  induction n with
  | zero =>
    intro pos h p hp
    unfold finditer at hp
    rw [dif_pos (by omega)] at hp
    cases hp
  | succ n ih =>
    intro pos h p hp
    unfold finditer at hp
    by_cases hq : text.length < pos
    · rw [dif_pos hq] at hp
      cases hp
    · rw [dif_neg hq] at hp
      cases hf : findFrom text pos with
      | none =>
        rw [hf] at hp
        cases hp
      | some q =>
        obtain ⟨off, d⟩ := q
        rw [hf] at hp
        obtain ⟨hm, hb⟩ := findFrom_correct text (text.length + 1 - pos) pos le_rfl off d hf
        have hend := matchEndAt_le (matchAt_some hm)
        rcases List.mem_cons.mp hp with rfl | hmem
        · exact ⟨Nat.le_add_right pos off, by omega, by omega, d, hm, rfl⟩
        · obtain ⟨ha, hb2, hc, hd⟩ := ih (pos + off + d + 1) (by omega) p hmem
          exact ⟨by omega, hb2, hc, hd⟩

theorem finditer_chain (text : List Char) :
    ∀ (n pos : Nat), text.length + 1 - pos ≤ n →
      List.Chain' (fun a b : Nat × Nat => a.2 ≤ b.1) (finditer text pos) := by
  intro n
  induction n with
  | zero =>
    intro pos h
    unfold finditer
    rw [dif_pos (by omega)]
    exact List.chain'_nil
  | succ n ih =>
    intro pos h
    unfold finditer
    by_cases hq : text.length < pos
    · rw [dif_pos hq]
      exact List.chain'_nil
    · rw [dif_neg hq]
      cases hf : findFrom text pos with
      | none => exact List.chain'_nil
      | some q =>
        obtain ⟨off, d⟩ := q
        refine List.chain'_cons'.mpr ⟨?_, ih (pos + off + d + 1) (by omega)⟩
        intro y hy
        have hmem : y ∈ finditer text (pos + off + d + 1) := by
          cases hl : finditer text (pos + off + d + 1) with
          | nil =>
            rw [hl] at hy
            cases hy
          | cons a l =>
            rw [hl, List.head?_cons, Option.mem_def] at hy
            injection hy with hy2
            rw [← hy2]
            exact List.mem_cons_self a l
        exact (finditer_mem text (text.length + 1 - (pos + off + d + 1))
          (pos + off + d + 1) le_rfl y hmem).1

theorem chain_lt_of_spans :
    ∀ l : List (Nat × Nat),
      List.Chain' (fun a b : Nat × Nat => a.2 ≤ b.1) l →
      (∀ p ∈ l, p.1 < p.2) →
      List.Chain' (fun a b : Nat => a < b) (l.map Prod.fst) := by
  intro l
  induction l with
  | nil => intro _ _; exact List.chain'_nil
  | cons a l ih =>
    intro hc hmem
    obtain ⟨hhead, htail⟩ := List.chain'_cons'.mp hc
    rw [List.map_cons]
    refine List.chain'_cons'.mpr
      ⟨?_, ih htail (fun p hp => hmem p (List.mem_cons_of_mem a hp))⟩
    intro y hy
    cases l with
    | nil => cases hy
    | cons b l2 =>
      rw [List.map_cons, List.head?_cons, Option.mem_def] at hy
      injection hy with hy2
      subst hy2
      have h1 : a.2 ≤ b.1 := hhead b rfl
      have h2 : a.1 < a.2 := hmem a (List.mem_cons_self a (b :: l2))
      omega

theorem blocksFrom_length (text : List Char) :
    ∀ ss : List Nat, (blocksFrom text ss).length = ss.length := by
  intro ss
  induction ss with
  | nil => rfl
  | cons s ss ih =>
    cases ss with
    | nil => rfl
    | cons s2 rest =>
      show (pyStrip ((text.drop s).take (s2 - s)) :: blocksFrom text (s2 :: rest)).length = _
      rw [List.length_cons, ih, List.length_cons]
      rfl

theorem blocksFrom_getElem? (text : List Char) :
    ∀ (ss : List Nat) (i : Nat),
      (blocksFrom text ss)[i]? =
        match ss[i]?, ss[i + 1]? with
        | some s, some s2 => some (pyStrip ((text.drop s).take (s2 - s)))
        | some s, none => some (pyStrip (text.drop s))
        | none, _ => none := by
  intro ss
  induction ss with
  | nil => intro i; rfl
  | cons s ss ih =>
    intro i
    cases ss with
    | nil =>
      match i with
      | 0 =>
        rw [show blocksFrom text [s] = [pyStrip (text.drop s)] from rfl,
          List.getElem?_cons_zero, List.getElem?_cons_zero, List.getElem?_cons_succ,
          List.getElem?_nil]
      | i + 1 =>
        rw [show blocksFrom text [s] = [pyStrip (text.drop s)] from rfl]
        rw [List.getElem?_cons_succ, List.getElem?_cons_succ, List.getElem?_cons_succ]
        simp only [List.getElem?_nil]
    | cons s2 rest =>
      match i with
      | 0 =>
        rw [show blocksFrom text (s :: s2 :: rest)
            = pyStrip ((text.drop s).take (s2 - s)) :: blocksFrom text (s2 :: rest) from rfl]
        rw [List.getElem?_cons_zero, List.getElem?_cons_zero, List.getElem?_cons_succ,
          List.getElem?_cons_zero]
      | i + 1 =>
        rw [show blocksFrom text (s :: s2 :: rest)
            = pyStrip ((text.drop s).take (s2 - s)) :: blocksFrom text (s2 :: rest) from rfl]
        rw [List.getElem?_cons_succ]
        rw [List.getElem?_cons_succ]
        rw [List.getElem?_cons_succ]
        exact ih i

/-- Claim C4: `extract_tickets` returns one block per `finditer` match of
the pattern (a line containing `"Jira"` whose next line starts with
`[G7APP-<digits>]`): block `i` spans from the start of match `i` to the
start of match `i + 1` (the last block extends to the end of the text),
stripped; the match starts are strictly increasing (so the blocks are
non-overlapping and in document order, with text before the first match
excluded), every listed span is a genuine pattern match, and with zero
matches the result is the empty list (the length equation). -/
theorem claim4_extract_tickets (text : List Char) :
    (extract_tickets text).length = (finditer text 0).length
    ∧ (∀ i, (extract_tickets text)[i]? =
        match ((finditer text 0).map Prod.fst)[i]?,
            ((finditer text 0).map Prod.fst)[i + 1]? with
        | some s, some s2 => some (pyStrip ((text.drop s).take (s2 - s)))
        | some s, none => some (pyStrip (text.drop s))
        | none, _ => none)
    ∧ List.Chain' (fun a b : Nat => a < b) ((finditer text 0).map Prod.fst)
    ∧ (∀ p ∈ finditer text 0, ∃ d, matchAt text p.1 = some d ∧ p.2 = p.1 + d + 1) := by
  refine ⟨?_, ?_, ?_, ?_⟩
  · rw [extract_tickets, blocksFrom_length]
    exact List.length_map _ _
  · intro i
    rw [extract_tickets]
    exact blocksFrom_getElem? text ((finditer text 0).map Prod.fst) i
  · refine chain_lt_of_spans (finditer text 0)
      (finditer_chain text (text.length + 1) 0 (by omega)) ?_
    intro p hp
    exact (finditer_mem text (text.length + 1) 0 (by omega) p hp).2.1
  · intro p hp
    exact (finditer_mem text (text.length + 1) 0 (by omega) p hp).2.2.2

theorem finditer_ex : finditer "Jira\n[G7APP-1]".data 0 = [(0, 14)] := by
  have h1 : matchAt "Jira\n[G7APP-1]".data 0 = some 13 := by decide
  have h2 : findFrom "Jira\n[G7APP-1]".data 0 = some (0, 13) := by
    rw [findFrom]
    rw [dif_neg (by decide), h1]
  have h6 : findFrom "Jira\n[G7APP-1]".data 15 = none := by
    rw [findFrom]
    exact dif_pos (by decide)
  have h5 : findFrom "Jira\n[G7APP-1]".data 14 = none := by
    rw [findFrom]
    rw [dif_neg (by decide), (by decide : matchAt "Jira\n[G7APP-1]".data 14 = none), h6]
    rfl
  have h4 : finditer "Jira\n[G7APP-1]".data 14 = [] := by
    rw [finditer]
    rw [dif_neg (by decide), h5]
  rw [finditer]
  rw [dif_neg (by decide), h2]
  show (0, 14) :: finditer "Jira\n[G7APP-1]".data 14 = [(0, 14)]
  rw [h4]

/-- Witness for C4 at a concrete two-line ticket dump with one match: the
span is a genuine match and the single block is the whole text. -/
theorem claim4_extract_tickets_witness :
    (0, 14) ∈ finditer "Jira\n[G7APP-1]".data 0
    ∧ (∃ d, matchAt "Jira\n[G7APP-1]".data (0, 14).1 = some d ∧ (0, 14).2 = (0, 14).1 + d + 1)
    ∧ extract_tickets "Jira\n[G7APP-1]".data = ["Jira\n[G7APP-1]".data] := by
  have hmem : (0, 14) ∈ finditer "Jira\n[G7APP-1]".data 0 := by
    rw [finditer_ex]
    exact List.mem_singleton.mpr rfl
  refine ⟨hmem, (claim4_extract_tickets "Jira\n[G7APP-1]".data).2.2.2 (0, 14) hmem, ?_⟩
  rw [extract_tickets, finditer_ex]
  decide

theorem jsonl_enum (loads : List Char → Option PyVal) (net : Nat → NetResult) :
    ∀ (cs : List (List Char)) (k : Nat),
      jsonl (runChunksFrom loads net k cs)
        = (cs.enumFrom k).filterMap (fun p =>
            ((extract_json loads (call_gemini (net p.1) p.2).reply).1).bind
              (fun v => if isNone v then none else some (p.1, v))) := by
  intro cs
  induction cs with
  | nil => intro k; rfl
  | cons c cs ih =>
    intro k
    show jsonl (processChunk loads (net k) k c :: runChunksFrom loads net (k + 1) cs) = _
    rw [List.enumFrom_cons]
    cases hv : (extract_json loads (call_gemini (net k) c).reply).1 with
    | none =>
      rw [jsonl_cons_none (by rw [processChunk_fail hv]), ih (k + 1),
        List.filterMap_cons_none (by rw [hv]; rfl)]
    | some v =>
      cases hn : isNone v with
      | true =>
        rw [jsonl_cons_none (by rw [processChunk_null hv hn]), ih (k + 1),
          List.filterMap_cons_none (by
            rw [hv]
            show (if isNone v = true then none else some ((k, c).1, v)) = none
            rw [hn, if_pos rfl])]
      | false =>
        rw [jsonl_cons_some (show (processChunk loads (net k) k c).line = some v by
            rw [processChunk_ok hv hn]),
          ih (k + 1), List.filterMap_cons_some (show _ = some (k, v) by
            rw [hv]
            show (if isNone v = true then none else some ((k, c).1, v)) = some (k, v)
            rw [hn, if_neg Bool.false_ne_true])]
        rw [processChunk_idx]

theorem jsonl_ascending (loads : List Char → Option PyVal) (net : Nat → NetResult) :
    ∀ (cs : List (List Char)) (k : Nat),
      List.Chain' (fun a b : Nat × PyVal => a.1 < b.1) (jsonl (runChunksFrom loads net k cs))
      ∧ ∀ q ∈ jsonl (runChunksFrom loads net k cs), k ≤ q.1 := by
  intro cs
  induction cs with
  | nil => intro k; exact ⟨List.chain'_nil, fun q hq => absurd hq (List.not_mem_nil q)⟩
  | cons c cs ih =>
    intro k
    obtain ⟨ihc, ihm⟩ := ih (k + 1)
    rw [show runChunksFrom loads net k (c :: cs)
        = processChunk loads (net k) k c :: runChunksFrom loads net (k + 1) cs from rfl]
    cases hv : (processChunk loads (net k) k c).line with
    | none =>
      rw [jsonl_cons_none hv]
      exact ⟨ihc, fun q hq => Nat.le_of_succ_le (ihm q hq)⟩
    | some v =>
      rw [jsonl_cons_some hv, processChunk_idx]
      refine ⟨List.chain'_cons'.mpr ⟨?_, ihc⟩, ?_⟩
      · intro h hh
        have hmem : h ∈ jsonl (runChunksFrom loads net (k + 1) cs) := by
          cases hl : jsonl (runChunksFrom loads net (k + 1) cs) with
          | nil => rw [hl] at hh; cases hh
          | cons a l =>
            rw [hl, List.head?_cons, Option.mem_def] at hh
            injection hh with hh2
            rw [← hh2]
            exact List.mem_cons_self a l
        exact Nat.lt_of_succ_le (ihm h hmem)
      · intro q hq
        rcases List.mem_cons.mp hq with rfl | hmem
        · exact Nat.le_refl k
        · exact Nat.le_of_succ_le (ihm q hmem)

theorem cardsOfObjs_cons_obj {g : List (List Char × PyVal)} {os : List PyVal}
    {c : HtmlCard} {rest : List HtmlCard}
    (h1 : renderCard g = some c) (h2 : cardsOfObjs os = some rest) :
    cardsOfObjs (PyVal.obj g :: os) = some (c :: rest) := by
  show (match renderCard g, cardsOfObjs os with
    | some c, some rest => some (c :: rest)
    | _, _ => none) = _
  rw [h1, h2]

theorem cardsOfObjs_ok :
    ∀ objs : List (List (List Char × PyVal)),
      (∀ g ∈ objs, (renderCard g).isSome) →
      ∃ cards, cardsOfObjs (objs.map PyVal.obj) = some cards
        ∧ cards.length = objs.length := by
  intro objs
  induction objs with
  | nil => intro _; exact ⟨[], rfl, rfl⟩
  | cons g objs ih =>
    intro h
    obtain ⟨rest, hrest, hlen⟩ := ih (fun g2 hg2 => h g2 (List.mem_cons_of_mem g hg2))
    obtain ⟨c, hc⟩ := Option.isSome_iff_exists.mp (h g (List.mem_cons_self g objs))
    exact ⟨c :: rest, by rw [List.map_cons, cardsOfObjs_cons_obj hc hrest],
      by rw [List.length_cons, List.length_cons, hlen]⟩

theorem cardsOfLine_jsonlVal (q : Nat × PyVal) :
    cardsOfLine (jsonlVal q) =
      match q.2 with
      | PyVal.arr objs => cardsOfObjs objs
      | PyVal.str s => if s.isEmpty then some [] else none
      | PyVal.obj gs => if gs.isEmpty then some [] else none
      | _ => none := by
  obtain ⟨i, v⟩ := q
  cases v <;> rfl

theorem cardsOfLines_cons_some {l : PyVal} {ls : List PyVal}
    {cs rest : List HtmlCard}
    (h1 : cardsOfLine l = some cs) (h2 : cardsOfLines ls = some rest) :
    cardsOfLines (l :: ls) = some (cs ++ rest) := by
  show (match cardsOfLine l, cardsOfLines ls with
    | some cs, some rest => some (cs ++ rest)
    | _, _ => none) = _
  rw [h1, h2]

theorem cards_of_lines_ok :
    ∀ L : List (Nat × PyVal),
      (∀ q ∈ L, ∃ objs : List (List (List Char × PyVal)),
        q.2 = PyVal.arr (objs.map PyVal.obj) ∧ ∀ g ∈ objs, (renderCard g).isSome) →
      ∃ cards, cardsOfLines (L.map jsonlVal) = some cards
        ∧ cards.length = (L.map (fun q =>
            match q.2 with
            | PyVal.arr xs => xs.length
            | _ => 0)).sum := by
  intro L
  induction L with
  | nil => intro _; exact ⟨[], rfl, rfl⟩
  | cons q L ih =>
    intro h
    obtain ⟨rest, hrest, hlenr⟩ := ih (fun p hp => h p (List.mem_cons_of_mem q hp))
    obtain ⟨objs, hobjs, hrender⟩ := h q (List.mem_cons_self q L)
    obtain ⟨cs, hcs, hlenc⟩ := cardsOfObjs_ok objs hrender
    have hline : cardsOfLine (jsonlVal q) = some cs := by
      rw [cardsOfLine_jsonlVal q, hobjs]
      exact hcs
    refine ⟨cs ++ rest, by rw [List.map_cons, cardsOfLines_cons_some hline hrest], ?_⟩
    rw [List.length_append, List.map_cons, List.sum_cons, hobjs, hlenr, hlenc]
    simp [List.length_map]

/-- Counterexample to claim C8 as stated: a reply whose tag-delimited
block is `null` is parsed successfully (`json.loads("null")` returns the
value `None`), yet `main`'s `if parsed is None` skips the chunk and no
JSON-lines entry is written for it. -/
theorem claim8_counterexample :
    (extract_json loadsNullEx (some "<JSON>null</JSON>".data)).1 = some PyVal.null
    ∧ jsonl (runChunks loadsNullEx
        (fun _ => NetResult.ok "<JSON>null</JSON>".data) ["t".data]) = [] :=
  ⟨rfl, rfl⟩

/-- Claim C8 as amended: one JSON-lines entry `(chunk index, parsed
results)` is written per chunk whose reply parses to a non-`None` value
(a reply whose block decodes to JSON `null` yields Python `None` and is
skipped like a failure, producing no line); entries appear in strictly
ascending chunk order, and — when every written `results` value is a list
of renderable result dicts, as the prompt requests — the HTML report
contains exactly one card per object across the lines' results lists. -/
theorem claim8_jsonl_and_cards (loads : List Char → Option PyVal)
    (net : Nat → NetResult) (chunks : List (List Char))
    (hyp : ∀ q ∈ jsonl (runChunks loads net chunks),
      ∃ objs : List (List (List Char × PyVal)),
        q.2 = PyVal.arr (objs.map PyVal.obj) ∧ ∀ g ∈ objs, (renderCard g).isSome) :
    jsonl (runChunks loads net chunks)
      = (chunks.enum).filterMap (fun p =>
          ((extract_json loads (call_gemini (net p.1) p.2).reply).1).bind
            (fun v => if isNone v then none else some (p.1, v)))
    ∧ List.Chain' (fun a b : Nat × PyVal => a.1 < b.1) (jsonl (runChunks loads net chunks))
    ∧ ∃ cards,
        generate_html ((jsonl (runChunks loads net chunks)).map jsonlVal) = some cards
        ∧ cards.length = ((jsonl (runChunks loads net chunks)).map (fun q =>
            match q.2 with
            | PyVal.arr xs => xs.length
            | _ => 0)).sum := by
  refine ⟨jsonl_enum loads net chunks 0, (jsonl_ascending loads net chunks 0).1, ?_⟩
  exact cards_of_lines_ok (jsonl (runChunks loads net chunks)) hyp

/-- Witness for C8: one chunk whose reply is `<JSON>[]</JSON>` yields the
single line `(0, [])`, in order, and the report renders zero cards. -/
theorem claim8_jsonl_and_cards_witness :
    (∀ q ∈ jsonl (runChunks loadsEx (fun _ => NetResult.ok "<JSON>[]</JSON>".data) ["t".data]),
      ∃ objs : List (List (List Char × PyVal)),
        q.2 = PyVal.arr (objs.map PyVal.obj) ∧ ∀ g ∈ objs, (renderCard g).isSome)
    ∧ (jsonl (runChunks loadsEx (fun _ => NetResult.ok "<JSON>[]</JSON>".data) ["t".data])
        = (["t".data].enum).filterMap (fun p =>
            ((extract_json loadsEx
              (call_gemini ((fun _ => NetResult.ok "<JSON>[]</JSON>".data) p.1) p.2).reply).1).bind
                (fun v => if isNone v then none else some (p.1, v)))
      ∧ List.Chain' (fun a b : Nat × PyVal => a.1 < b.1)
          (jsonl (runChunks loadsEx (fun _ => NetResult.ok "<JSON>[]</JSON>".data) ["t".data]))
      ∧ ∃ cards,
          generate_html ((jsonl (runChunks loadsEx
              (fun _ => NetResult.ok "<JSON>[]</JSON>".data) ["t".data])).map jsonlVal)
            = some cards
          ∧ cards.length = ((jsonl (runChunks loadsEx
              (fun _ => NetResult.ok "<JSON>[]</JSON>".data) ["t".data])).map (fun q =>
                match q.2 with
                | PyVal.arr xs => xs.length
                | _ => 0)).sum) := by
  have hyp : ∀ q ∈ jsonl (runChunks loadsEx
      (fun _ => NetResult.ok "<JSON>[]</JSON>".data) ["t".data]),
      ∃ objs : List (List (List Char × PyVal)),
        q.2 = PyVal.arr (objs.map PyVal.obj) ∧ ∀ g ∈ objs, (renderCard g).isSome := by
    intro q hq
    have hl : jsonl (runChunks loadsEx
        (fun _ => NetResult.ok "<JSON>[]</JSON>".data) ["t".data]) = [(0, PyVal.arr [])] := rfl
    rw [hl, List.mem_singleton] at hq
    subst hq
    exact ⟨[], rfl, fun g hg => absurd hg (List.not_mem_nil g)⟩
  exact ⟨hyp, claim8_jsonl_and_cards loadsEx (fun _ => NetResult.ok "<JSON>[]</JSON>".data)
    ["t".data] hyp⟩

/-- Claim C6: exactly one blocking HTTP POST is attempted per non-empty
chunk (none for an empty chunk), the POSTs happen in chunk order one
iteration at a time, each loop iteration issues at most one POST, and the
loop visits the chunk indices `0, 1, …` exactly once each — so no chunk is
sent twice and there is no retry. -/
theorem claim6_one_post_per_chunk (loads : List Char → Option PyVal)
    (net : Nat → NetResult) (chunks : List (List Char)) :
    requestsOf (runChunks loads net chunks) = chunks.filter (fun c => !c.isEmpty)
    ∧ (runChunks loads net chunks).map ChunkOut.idx = List.range chunks.length
    ∧ (∀ o ∈ runChunks loads net chunks, o.requests.length ≤ 1) := by
  refine ⟨runChunksFrom_requests loads net chunks 0, ?_, runChunksFrom_req_le loads net chunks 0⟩
  rw [runChunks, runChunksFrom_idx loads net chunks 0, List.range_eq_range']

/-- Witness for C6: two chunks, one empty — exactly one POST, for the
non-empty chunk, and the loop still visits both indices in order. -/
theorem claim6_one_post_per_chunk_witness :
    requestsOf (runChunks loadsEx (fun _ => NetResult.netError) ["a".data, []])
        = ["a".data]
    ∧ (requestsOf (runChunks loadsEx (fun _ => NetResult.netError) ["a".data, []])
        = (["a".data, []] : List (List Char)).filter (fun c => !c.isEmpty)
      ∧ (runChunks loadsEx (fun _ => NetResult.netError) ["a".data, []]).map ChunkOut.idx
          = List.range (["a".data, []] : List (List Char)).length
      ∧ (∀ o ∈ runChunks loadsEx (fun _ => NetResult.netError) ["a".data, []],
          o.requests.length ≤ 1)) :=
  ⟨rfl, claim6_one_post_per_chunk loadsEx (fun _ => NetResult.netError) ["a".data, []]⟩

/-- Witness for C5 at four tickets: two chunks, the first joining three
tickets with the separator, the second holding the leftover ticket. -/
theorem claim5_chunking_witness :
    chunk_tickets ["a".data, "b".data, "c".data, "d".data]
        = ["a\n\n---\n\nb\n\n---\n\nc".data, "d".data]
    ∧ (chunk_tickets ["a".data, "b".data, "c".data, "d".data]).length
        = ((["a".data, "b".data, "c".data, "d".data] : List (List Char)).length + 2) / 3 := by
  have h : chunk_tickets ["a".data, "b".data, "c".data, "d".data]
      = ["a\n\n---\n\nb\n\n---\n\nc".data, "d".data] := by
    rw [chunk_tickets_cons]
    rw [show ((["a".data, "b".data, "c".data, "d".data] : List (List Char)).drop
        TICKETS_PER_CHUNK) = ["d".data] from rfl]
    rw [chunk_tickets_cons]
    rw [show ((["d".data] : List (List Char)).drop TICKETS_PER_CHUNK) = [] from rfl]
    rw [chunk_tickets_nil]
    decide
  exact ⟨h, (claim5_chunking ["a".data, "b".data, "c".data, "d".data]).2.1⟩

/-- Witness for C10 at a concrete two-entry list with a `None` entry: the
`None` is skipped and the remaining entry is rendered as one `<li>`. -/
theorem claim10_list_to_html_witness :
    list_to_html (PyVal.arr [PyVal.str "a".data, PyVal.null]) = some "<li>a</li>".data
    ∧ (∃ r, list_to_html (PyVal.arr [PyVal.str "a".data, PyVal.null]) = some r ∧ r ≠ [])
    ∧ list_to_html PyVal.null = some liDash :=
  ⟨rfl, (claim10_list_to_html [PyVal.str "a".data, PyVal.null]).2.1,
    (claim10_list_to_html [PyVal.str "a".data, PyVal.null]).2.2.1⟩

/-- Witness for the amended C2 at a concrete tagged JSON-array reply. -/
theorem claim2_amended_json_only_witness :
    pyFind (pyStrip "<JSON>[]</JSON>".data) tagOpen = some 0
    ∧ pyFind (pyStrip "<JSON>[]</JSON>".data) tagClose = some 8
    ∧ loadsEx (pyStrip (((pyStrip "<JSON>[]</JSON>".data).drop (0 + tagOpen.length)).take
        (8 - (0 + tagOpen.length)))) = some (PyVal.arr [])
    ∧ (extract_json loadsEx (some "<JSON>[]</JSON>".data)).1 = some (PyVal.arr []) := by
  refine ⟨rfl, rfl, rfl, ?_⟩
  exact (claim2_amended_json_only loadsEx "<JSON>[]</JSON>".data).2 0 8 [] rfl rfl rfl
